import Mathlib

/-!
Verification development for the Perforce VS Code extension
(src/src/extension.ts).

The extension watches three event sources — the overridden `type` command
(keystrokes), `watcher.onDidCreate`, and `watcher.onDidDelete` — and, after a
chain of guards, shows a modal confirmation dialog and invokes a Perforce
command (`p4 edit` / `p4 add` / `p4 delete`).

This file shallowly embeds:
  * the pure helper functions `isReadOnly`, `isIgnoredByP4Ignore`, and
    `executePerforceEdit` as Lean functions translated line-by-line from the
    TypeScript source;
  * the three asynchronous event handlers as a small-step machine whose
    atomic steps are the code regions between `await` suspension points.
    The shared mutable state (`pendingPrompt`, `dismissedFiles`,
    `pendingDialogs`) is a record threaded through the steps, and a scheduler
    (a list of instance indices) chooses which suspended handler instance
    resumes next, modelling the JavaScript event loop's interleaving of
    concurrently pending handler invocations.

External collaborators are modelled as environment data: the configuration
toggle, the results of `p4 where` / `p4 fstat` per path, the user's dialog
answer, and the success or failure of command invocations.
-/

namespace PerforceExt

/-! ## String helpers with JavaScript semantics

`containsSub s sub` models JavaScript's `String.prototype.includes`:
does `sub` occur as a contiguous substring of `s`? -/

/-- Does the character list `s` start with the character list `sub`? -/
def charsHavePre (sub s : List Char) : Bool :=
  match sub, s with
  | [], _ => true
  | _ :: _, [] => false
  | a :: as, b :: bs => a == b && charsHavePre as bs

/-- Does `sub` occur at some position of `s` (including the end position)? -/
def charsContain (sub : List Char) : List Char → Bool
  | [] => charsHavePre sub []
  | c :: rest => charsHavePre sub (c :: rest) || charsContain sub rest

/-- JavaScript `s.includes(sub)`. -/
def containsSub (s sub : String) : Bool :=
  charsContain sub.data s.data

/-! ## isReadOnly (extension.ts lines 5-15)

`fs.statSync` either yields a mode word or throws; we model its outcome as
`Option Nat`.  The source returns `(stats.mode & 0o200) === 0` and returns
`false` from the `catch` block when the stat call throws. -/

/-- Translation of `isReadOnly`: `none` models a thrown `statSync` (caught,
yielding `false`); `some mode` tests the owner-write bit `0o200 = 128`. -/
def isReadOnly : Option Nat → Bool
  | none => false
  | some mode => (mode &&& 128) == 0

/-! ## isIgnoredByP4Ignore (extension.ts lines 38-87)

Paths are modelled as segment lists measured from the filesystem root, so the
root directory is `[]` and `path.dirname` is `List.dropLast`.  The source
walks `currentDir` upward from `dirname(filePath)` with
`while (currentDir !== root)`, checking each directory for a `.p4ignore`
file; the first directory that has one is consulted (then the walk breaks).
`ancChain d` lists exactly the directories the loop visits, in order: the
nonempty ancestors of `d`, from `d` itself up to (but excluding) the root. -/

/-- The filesystem as the ignore check sees it: which directories contain a
`.p4ignore` file, and what its text content is. -/
structure IgnoreFs where
  hasIgnore : List String → Bool
  content : List String → String

/-- Directories visited by the upward walk starting at `d`: `d`, its parent,
..., stopping before the root `[]`.  (`d.take (d.length - k)` for `k` below
`d.length` enumerates the nonempty prefixes from longest to shortest.) -/
def ancChain (d : List String) : List (List String) :=
  (List.range d.length).map (fun k => d.take (d.length - k))

/-- One pattern test from the body of the `for (const pattern of patterns)`
loop: trailing-slash normalisation, then absolute (`/`-anchored) or relative
segment matching against the `/`-joined path relative to the ignore file's
directory. -/
def matchesPattern (rel : String) (pattern : String) : Bool :=
  let normalized := if pattern.endsWith "/" then pattern.dropRight 1 else pattern
  if normalized.startsWith "/" then
    let pathToCheck := normalized.drop 1
    rel.startsWith (pathToCheck ++ "/") || rel == pathToCheck
  else
    containsSub rel ("/" ++ normalized ++ "/") || rel.startsWith (normalized ++ "/")

/-- Parse the ignore file found in `dir` and test `filePath` against each
pattern: split on newlines, trim, drop blank lines and `#` comments
(`line && !line.startsWith('#')`), then `matchesPattern` on the
`path.relative(currentDir, filePath)` form (the segments of `filePath` below
`dir`, joined with `/`). -/
def fileMatchesIgnoreFile (fs : IgnoreFs) (dir : List String) (filePath : List String) : Bool :=
  let patterns := ((fs.content dir).splitOn "\n").map String.trim
    |>.filter (fun line => !(line == "") && !(line.startsWith "#"))
  let rel := String.intercalate "/" (filePath.drop dir.length)
  patterns.any (fun pattern => matchesPattern rel pattern)

/-- Translation of `isIgnoredByP4Ignore`: walk upward from
`dirname(filePath)`; the first directory (strictly below the root) containing
a `.p4ignore` decides the result; reaching the root without finding one
yields `false`. -/
def isIgnoredByP4Ignore (fs : IgnoreFs) (filePath : List String) : Bool :=
  match (ancChain filePath.dropLast).find? (fun d => fs.hasIgnore d) with
  | some d => fileMatchesIgnoreFile fs d filePath
  | none => false

/-! ## executePerforceEdit (extension.ts lines 124-139)

The invocation of a VS Code command either succeeds or throws. -/

/-- Outcome of one external command invocation. -/
inductive CmdRes
  | ok
  | thrown
  deriving DecidableEq

/-- Observable result of `executePerforceEdit`. -/
structure EditResult where
  success : Bool
  fallbackTried : Bool
  errorShown : Bool
  deriving DecidableEq

/-- Translation of `executePerforceEdit`: try `perforce.edit`; only if it
throws, try `perforce.menuFunctionEdit`; if that throws too, show the error
message and report failure. -/
def executePerforceEdit (primary fallback : CmdRes) : EditResult :=
  match primary with
  | .ok => { success := true, fallbackTried := false, errorShown := false }
  | .thrown =>
    match fallback with
    | .ok => { success := true, fallbackTried := true, errorShown := false }
    | .thrown => { success := false, fallbackTried := true, errorShown := true }

/-! ## The event-handler machine (extension.ts lines 197-430)

Each handler invocation is an `Inst`; its `pc` names the suspension point at
which it is parked.  An atomic step runs from one resume point to the next
`await` (or to termination).  The `await`s in the source are: the calls to
`isIgnoredByP4Ignore`, `isInPerforceWorkspace`, `isFileInPerforce`, the modal
`showInformationMessage`, and the command execution
(`executePerforceEdit` / `executePerforceAdd` / `executePerforceDelete`).
The `type` handler's prefix — editor/scheme/config checks, the synchronous
`isReadOnly` stat, the `dismissedFiles` and `pendingPrompt` guards, and the
assignment marking `pendingPrompt` — runs without suspension and is one
atomic step.

`watcher.onDidCreate` / `watcher.onDidDelete` come from
`createFileSystemWatcher`; these events are notifications delivered after the
filesystem change has already happened, and their handlers return
`Promise<void>` with no cancellation channel, so a deletion event means the
file is already gone when the handler starts. -/

/-- User's response to `showInformationMessage` with `Yes`/`No` buttons:
`dismissed` models closing the dialog (the promise resolves to `undefined`).
The source tests only `result === 'Yes'`. -/
inductive Answer
  | yes
  | no
  | dismissed
  deriving DecidableEq

/-- Which handler an instance is an invocation of. -/
inductive HKind
  | typeH
  | createH
  | deleteH
  deriving DecidableEq

/-- Suspension points. `start` = invoked but not yet run; `done` = handler
body (including its `finally`) returned. -/
inductive Pc
  | start
  | awaitIgnored
  | awaitWorkspace
  | awaitFstat
  | awaitDialog
  | awaitCmd
  | done
  deriving DecidableEq

/-- Externally observable actions, in the order they are performed. -/
inductive Act
  | fsDelete (p : String)
  | defaultType (p : String)
  | dialog (k : HKind) (p : String)
  | p4edit (p : String)
  | p4add (p : String)
  | p4delete (p : String)
  | suppress (p : String) (ms : Nat)
  | unsuppress (p : String)
  | infoMsg
  | errMsg
  deriving DecidableEq

/-- The fixed external world for one run: the configuration toggle and the
per-path results of the `.p4ignore` check, `p4 where`, and `p4 fstat`. -/
structure Env where
  enabled : Bool
  ignored : String → Bool
  inWorkspace : String → Bool
  inPerforce : String → Bool

/-- One handler invocation: its kind, the path the event is for, the user's
eventual dialog answer, the outcomes of the commands it may run
(`primary`/`fallback` for `executePerforceEdit`, `cmdRes` for the
`p4 add` / `p4 delete` invocation), the `statSync` outcome, and the two
synchronous editor checks at the top of the `type` handler. -/
structure Inst where
  kind : HKind
  path : String
  answer : Answer
  primary : CmdRes
  fallback : CmdRes
  cmdRes : CmdRes
  statMode : Option Nat
  hasEditor : Bool
  schemeFile : Bool
  pc : Pc

/-- The shared mutable state of `activate`: `pendingDialogs` (a `Set` of
paths), `dismissedFiles` (a `Map` from path to its timeout's duration in
milliseconds), `pendingPrompt` (non-null promise modelled as `true`), plus
the trace of observable actions. -/
structure Glob where
  pendingDialogs : List String
  dismissedFiles : List (String × Nat)
  pendingPrompt : Bool
  trace : List Act

/-- Is `p` a key of the `dismissedFiles` map (`dismissedFiles.has(p)`)? -/
def keyMem (p : String) (l : List (String × Nat)) : Bool :=
  l.any (fun e => e.1 == p)

/-- `dismissedFiles.delete(p)`. -/
def eraseKey (p : String) (l : List (String × Nat)) : List (String × Nat) :=
  l.filter (fun e => !(e.1 == p))

/-- `dismissedFiles.set(p, timeout)` where the timeout fires after `ms`. -/
def setKey (p : String) (ms : Nat) (l : List (String × Nat)) : List (String × Nat) :=
  (p, ms) :: eraseKey p l

/-- `pendingDialogs.add(p)` (set semantics: no duplicate entries). -/
def addPD (p : String) (l : List String) : List String :=
  if l.contains p then l else p :: l

/-- Advance one instance by one atomic step (from its current suspension
point to the next), reading and writing the shared state. -/
def stepInst (e : Env) (g : Glob) (i : Inst) : Inst × Glob :=
  match i.kind, i.pc with
  -- type handler (lines 203-296): synchronous prefix
  | .typeH, .start =>
    if !i.hasEditor || !i.schemeFile || !e.enabled || !(isReadOnly i.statMode) then
      ({ i with pc := .done }, { g with trace := g.trace ++ [.defaultType i.path] })
    else if keyMem i.path g.dismissedFiles then
      ({ i with pc := .done }, g)
    else if g.pendingPrompt then
      ({ i with pc := .done }, g)
    else
      ({ i with pc := .awaitWorkspace }, { g with pendingPrompt := true })
  -- type handler: resumed from `await isInPerforceWorkspace` (lines 246-264)
  | .typeH, .awaitWorkspace =>
    if !(e.inWorkspace i.path) then
      ({ i with pc := .done },
       { g with dismissedFiles := setKey i.path 100 g.dismissedFiles,
                pendingPrompt := false,
                trace := g.trace ++ [.suppress i.path 100] })
    else
      ({ i with pc := .awaitDialog },
       { g with trace := g.trace ++ [.dialog .typeH i.path] })
  -- type handler: dialog resolved (lines 266-291)
  | .typeH, .awaitDialog =>
    match i.answer with
    | .yes =>
      ({ i with pc := .awaitCmd }, { g with trace := g.trace ++ [.p4edit i.path] })
    | _ =>
      ({ i with pc := .done },
       { g with dismissedFiles := setKey i.path 100 g.dismissedFiles,
                pendingPrompt := false,
                trace := g.trace ++ [.suppress i.path 100] })
  -- type handler: `executePerforceEdit` resolved, then the `finally`
  | .typeH, .awaitCmd =>
    if (executePerforceEdit i.primary i.fallback).success then
      ({ i with pc := .done },
       { g with dismissedFiles := eraseKey i.path g.dismissedFiles,
                pendingPrompt := false,
                trace := g.trace ++ [.unsuppress i.path] })
    else
      ({ i with pc := .done },
       { g with pendingPrompt := false, trace := g.trace ++ [.errMsg] })
  -- create handler (lines 302-360)
  | .createH, .start => ({ i with pc := .awaitIgnored }, g)
  | .createH, .awaitIgnored =>
    if e.ignored i.path then ({ i with pc := .done }, g)
    else if !e.enabled then ({ i with pc := .done }, g)
    else ({ i with pc := .awaitWorkspace }, g)
  | .createH, .awaitWorkspace =>
    -- the `pendingDialogs.has` guard (line 327) runs here, BEFORE the
    -- `await isFileInPerforce(...)` (line 334)
    if !(e.inWorkspace i.path) then ({ i with pc := .done }, g)
    else if g.pendingDialogs.contains i.path then ({ i with pc := .done }, g)
    else ({ i with pc := .awaitFstat }, g)
  | .createH, .awaitFstat =>
    if e.inPerforce i.path then ({ i with pc := .done }, g)
    else
      ({ i with pc := .awaitDialog },
       { g with pendingDialogs := addPD i.path g.pendingDialogs,
                trace := g.trace ++ [.dialog .createH i.path] })
  | .createH, .awaitDialog =>
    match i.answer with
    | .yes =>
      ({ i with pc := .awaitCmd }, { g with trace := g.trace ++ [.p4add i.path] })
    | _ =>
      ({ i with pc := .done },
       { g with pendingDialogs := g.pendingDialogs.erase i.path })
  | .createH, .awaitCmd =>
    ({ i with pc := .done },
     { g with pendingDialogs := g.pendingDialogs.erase i.path,
              trace := g.trace ++ [if i.cmdRes == .ok then .infoMsg else .errMsg] })
  -- delete handler (lines 363-420)
  | .deleteH, .start => ({ i with pc := .awaitIgnored }, g)
  | .deleteH, .awaitIgnored =>
    if e.ignored i.path then ({ i with pc := .done }, g)
    else if !e.enabled then ({ i with pc := .done }, g)
    else ({ i with pc := .awaitWorkspace }, g)
  | .deleteH, .awaitWorkspace =>
    if !(e.inWorkspace i.path) then ({ i with pc := .done }, g)
    else ({ i with pc := .awaitFstat }, g)
  | .deleteH, .awaitFstat =>
    -- here the `pendingDialogs.has` guard (line 397) and the `add`
    -- (line 403) run in the same atomic region, after `isFileInPerforce`
    if !(e.inPerforce i.path) then ({ i with pc := .done }, g)
    else if g.pendingDialogs.contains i.path then ({ i with pc := .done }, g)
    else
      ({ i with pc := .awaitDialog },
       { g with pendingDialogs := addPD i.path g.pendingDialogs,
                trace := g.trace ++ [.dialog .deleteH i.path] })
  | .deleteH, .awaitDialog =>
    match i.answer with
    | .yes =>
      ({ i with pc := .awaitCmd }, { g with trace := g.trace ++ [.p4delete i.path] })
    | _ =>
      ({ i with pc := .done },
       { g with pendingDialogs := g.pendingDialogs.erase i.path })
  | .deleteH, .awaitCmd =>
    ({ i with pc := .done },
     { g with pendingDialogs := g.pendingDialogs.erase i.path,
              trace := g.trace ++ [if i.cmdRes == .ok then .infoMsg else .errMsg] })
  -- done instances, and pc values a handler kind never reaches, do nothing
  | _, _ => (i, g)

/-- A run configuration: the environment, the handler instances in flight,
and the shared state. -/
structure Config where
  env : Env
  insts : List Inst
  glob : Glob

/-- Let instance `n` take one atomic step (no-op for an absent index). -/
def stepAt (c : Config) (n : Nat) : Config :=
  match c.insts[n]? with
  | none => c
  | some i =>
    match stepInst c.env c.glob i with
    | (i', g') => { c with insts := c.insts.set n i', glob := g' }

/-- Run the machine under a scheduler: at each point the scheduler picks
which pending instance resumes, modelling event-loop interleaving. -/
def run (c : Config) : List Nat → Config
  | [] => c
  | n :: rest => run (stepAt c n) rest

/-- The shared state at `activate` time: both containers empty, no pending
prompt. -/
def initGlob : Glob :=
  { pendingDialogs := [], dismissedFiles := [], pendingPrompt := false, trace := [] }

/-- Initial configuration for a list of freshly invoked handlers. -/
def initCfg (e : Env) (l : List Inst) : Config :=
  { env := e, insts := l, glob := initGlob }

/-- A freshly invoked `type`-handler instance (focused file-scheme editor). -/
def mkType (p : String) (a : Answer) (pf pb : CmdRes) (m : Option Nat) : Inst :=
  { kind := .typeH, path := p, answer := a, primary := pf, fallback := pb,
    cmdRes := .ok, statMode := m, hasEditor := true, schemeFile := true, pc := .start }

/-- A freshly invoked `onDidCreate`-handler instance. -/
def mkCreate (p : String) (a : Answer) (cr : CmdRes) : Inst :=
  { kind := .createH, path := p, answer := a, primary := .ok, fallback := .ok,
    cmdRes := cr, statMode := none, hasEditor := true, schemeFile := true, pc := .start }

/-- A freshly invoked `onDidDelete`-handler instance. -/
def mkDelete (p : String) (a : Answer) (cr : CmdRes) : Inst :=
  { kind := .deleteH, path := p, answer := a, primary := .ok, fallback := .ok,
    cmdRes := cr, statMode := none, hasEditor := true, schemeFile := true, pc := .start }

/-- Any single handler runs to completion in at most six steps; eight leave
slack (steps on a `done` instance are no-ops). -/
def seq8 : List Nat := [0, 0, 0, 0, 0, 0, 0, 0]

/-- Run one handler instance alone, to completion, from the initial shared
state. -/
def runOne (e : Env) (i : Inst) : Config :=
  run (initCfg e [i]) seq8

/-- Everything observable about one `onDidDelete` event: the watcher reports
the deletion after the fact, so the filesystem deletion precedes the handler
invocation in the event's history. -/
def deleteEventTrace (e : Env) (i : Inst) : List Act :=
  .fsDelete i.path :: (runOne e i).glob.trace

/-- Does `a` occur strictly before some later occurrence of `b`? -/
def precedes (a b : Act) : List Act → Bool
  | [] => false
  | x :: rest => if x == a then rest.contains b else precedes a b rest

/-- The timer registered by `setTimeout(() => dismissedFiles.delete(p), ms)`
fires: the suppression entry for `p` expires. -/
def expireTimer (p : String) (g : Glob) : Glob :=
  { g with dismissedFiles := eraseKey p g.dismissedFiles }

/-! ## Concrete environments for witnesses and counterexamples -/

/-- Feature enabled; the path is not ignored, is inside the workspace, and is
tracked by Perforce. -/
def cEnvAll : Env :=
  { enabled := true, ignored := fun _ => false,
    inWorkspace := fun _ => true, inPerforce := fun _ => true }

/-- Feature enabled; the path is not ignored, is inside the workspace, but is
not yet tracked (a newly created file). -/
def cEnvNewFile : Env :=
  { enabled := true, ignored := fun _ => false,
    inWorkspace := fun _ => true, inPerforce := fun _ => false }

/-- Feature enabled; the path is outside any Perforce workspace. -/
def cEnvOutside : Env :=
  { enabled := true, ignored := fun _ => false,
    inWorkspace := fun _ => false, inPerforce := fun _ => false }

/-! ## Small auxiliary lemmas -/

theorem contains_true_iff (l : List String) (a : String) :
    l.contains a = true ↔ a ∈ l := by
  simp [List.contains_eq_any_beq, List.any_eq_true]

theorem keyMem_eraseKey (p : String) (L : List (String × Nat)) :
    keyMem p (eraseKey p L) = false := by
  simp only [keyMem, eraseKey, Bool.eq_false_iff, ne_eq, List.any_eq_true, List.mem_filter]
  rintro ⟨x, ⟨hx, hxne⟩, hxeq⟩
  simp [hxeq] at hxne

/-! ## Claim theorems -/

/-- C10: the upward `.p4ignore` walk stops when `currentDir` equals the
filesystem root without examining the root itself, so an ignore file that
exists only in the root directory is never consulted and no path is ever
treated as ignored because of it. -/
theorem root_p4ignore_never_consulted (fs : IgnoreFs) (fp : List String)
    (h : ∀ d, fs.hasIgnore d = true → d = []) :
    isIgnoredByP4Ignore fs fp = false := by
  unfold isIgnoredByP4Ignore
  have hnone : (ancChain fp.dropLast).find? (fun d => fs.hasIgnore d) = none := by
    rw [List.find?_eq_none]
    intro d hd hig
    have hd0 : d = [] := h d hig
    rcases List.mem_map.mp hd with ⟨k, hk, hdk⟩
    have hk' : k < fp.dropLast.length := List.mem_range.mp hk
    have hlen : d.length = fp.dropLast.length - k := by
      rw [← hdk, List.length_take]; omega
    rw [hd0] at hlen
    simp only [List.length_nil] at hlen
    omega
  rw [hnone]

/-- The filesystem whose only `.p4ignore` sits in the root directory. -/
def rootOnlyFs : IgnoreFs :=
  { hasIgnore := fun d => d == ([] : List String), content := fun _ => "target/" }

/-- Witness for C10 at a concrete filesystem and file path. -/
theorem root_p4ignore_never_consulted_witness :
    (∀ d, rootOnlyFs.hasIgnore d = true → d = []) ∧
    isIgnoredByP4Ignore rootOnlyFs ["a", "b.txt"] = false := by
  have harg : ∀ d, rootOnlyFs.hasIgnore d = true → d = [] := by
    intro d hd
    simpa [rootOnlyFs] using hd
  exact ⟨harg, root_p4ignore_never_consulted rootOnlyFs ["a", "b.txt"] harg⟩

/-- C7: `executePerforceEdit` tries the primary command identifier
(`perforce.edit`) first; the fallback (`perforce.menuFunctionEdit`) is tried
exactly when the primary throws; the result is a success iff either
invocation succeeds, and the user-visible error notification appears exactly
when both throw (the external-command-failure path). -/
theorem edit_primary_then_fallback (p f : CmdRes) :
    (executePerforceEdit p f).fallbackTried = decide (p = .thrown) ∧
    (executePerforceEdit p f).success = (decide (p = .ok) || decide (f = .ok)) ∧
    (executePerforceEdit p f).errorShown = (decide (p = .thrown) && decide (f = .thrown)) := by
  cases p <;> cases f <;> exact ⟨rfl, rfl, rfl⟩

/-- C8: when `fs.statSync` throws (no stat result), `isReadOnly` returns
`false` and the keystroke is forwarded unchanged to `default:type`; nothing
else happens (no dialog, no swallowed input). -/
theorem stat_failure_passthrough (e : Env) (p : String) (a : Answer) (pf pb : CmdRes)
    (he : e.enabled = true) :
    isReadOnly none = false ∧
    (runOne e (mkType p a pf pb none)).glob.trace = [.defaultType p] := by
  refine ⟨rfl, ?_⟩
  simp [runOne, run, initCfg, initGlob, stepAt, stepInst, mkType, seq8, he, isReadOnly]

/-- Witness for C8 at a concrete environment and path. -/
theorem stat_failure_passthrough_witness :
    cEnvAll.enabled = true ∧
    (isReadOnly none = false ∧
     (runOne cEnvAll (mkType "a.txt" .no .ok .ok none)).glob.trace = [.defaultType "a.txt"]) :=
  ⟨rfl, stat_failure_passthrough cEnvAll "a.txt" .no .ok .ok rfl⟩

/-- C5: a keystroke on a read-only file whose path is currently a key of
`dismissedFiles` is silently dropped: no dialog, no `default:type`, no state
change (empty trace); and once the suppression entry's timer has fired
(removing the key), the same event shows the dialog again. -/
theorem suppressed_keystroke_swallowed (e : Env) (p : String) (a : Answer)
    (pf pb : CmdRes) (m : Option Nat) (L : List (String × Nat)) (b : Bool)
    (he : e.enabled = true) (hro : isReadOnly m = true) (hmem : keyMem p L = true)
    (hw : e.inWorkspace p = true) :
    (run { env := e, insts := [mkType p a pf pb m],
           glob := { initGlob with dismissedFiles := L, pendingPrompt := b } } seq8).glob.trace
      = [] ∧
    (.dialog .typeH p) ∈
      (run { env := e, insts := [mkType p a pf pb m],
             glob := { initGlob with dismissedFiles := eraseKey p L } } seq8).glob.trace := by
  constructor
  · simp [run, stepAt, stepInst, mkType, seq8, initGlob, he, hro, hmem]
  · cases a <;> cases pf <;> cases pb <;>
      simp [run, stepAt, stepInst, mkType, seq8, initGlob, he, hro, hw,
            keyMem_eraseKey, executePerforceEdit]

/-- Witness for C5 at a concrete environment, path, and suppression set. -/
theorem suppressed_keystroke_swallowed_witness :
    (cEnvAll.enabled = true ∧ isReadOnly (some 0) = true ∧
     keyMem "a.txt" [("a.txt", 100)] = true ∧ cEnvAll.inWorkspace "a.txt" = true) ∧
    ((run { env := cEnvAll, insts := [mkType "a.txt" .no .ok .ok (some 0)],
            glob := { initGlob with dismissedFiles := [("a.txt", 100)], pendingPrompt := false } }
        seq8).glob.trace = [] ∧
     (.dialog .typeH "a.txt") ∈
       (run { env := cEnvAll, insts := [mkType "a.txt" .no .ok .ok (some 0)],
              glob := { initGlob with dismissedFiles := eraseKey "a.txt" [("a.txt", 100)] } }
          seq8).glob.trace) :=
  ⟨⟨rfl, rfl, rfl, rfl⟩,
   suppressed_keystroke_swallowed cEnvAll "a.txt" .no .ok .ok (some 0)
     [("a.txt", 100)] false rfl rfl rfl rfl⟩

/-- C9: a keystroke on a read-only file that is not inside a Perforce
workspace shows no dialog; the handler silently adds the path to the
suppression set with the 100 ms expiry and releases the prompt marker
(workspace membership is checked before any dialog is shown). -/
theorem unmanaged_readonly_suppressed (e : Env) (p : String) (a : Answer)
    (pf pb : CmdRes) (m : Option Nat)
    (he : e.enabled = true) (hro : isReadOnly m = true) (hw : e.inWorkspace p = false) :
    (runOne e (mkType p a pf pb m)).glob.trace = [.suppress p 100] ∧
    (runOne e (mkType p a pf pb m)).glob.dismissedFiles = [(p, 100)] ∧
    (runOne e (mkType p a pf pb m)).glob.pendingPrompt = false := by
  refine ⟨?_, ?_, ?_⟩ <;>
    simp [runOne, run, initCfg, initGlob, stepAt, stepInst, mkType, seq8,
          he, hro, hw, setKey, eraseKey, keyMem]

/-- Witness for C9 at a concrete environment and path. -/
theorem unmanaged_readonly_suppressed_witness :
    (cEnvOutside.enabled = true ∧ isReadOnly (some 0) = true ∧
     cEnvOutside.inWorkspace "a.txt" = false) ∧
    ((runOne cEnvOutside (mkType "a.txt" .no .ok .ok (some 0))).glob.trace
        = [.suppress "a.txt" 100] ∧
     (runOne cEnvOutside (mkType "a.txt" .no .ok .ok (some 0))).glob.dismissedFiles
        = [("a.txt", 100)] ∧
     (runOne cEnvOutside (mkType "a.txt" .no .ok .ok (some 0))).glob.pendingPrompt = false) :=
  ⟨⟨rfl, rfl, rfl⟩,
   unmanaged_readonly_suppressed cEnvOutside "a.txt" .no .ok .ok (some 0) rfl rfl rfl⟩

/-- Counterexample to C6 as stated: a creation-flow prompt is shown
(`.dialog .createH "b.txt"` is in the trace) and the user declines, yet no
suppression entry is added for the path — `dismissedFiles` stays empty and
the trace records no `suppress` action.  Only the keystroke flow suppresses
on decline. -/
theorem create_decline_adds_no_suppression :
    (.dialog .createH "b.txt") ∈ (runOne cEnvNewFile (mkCreate "b.txt" .no .ok)).glob.trace ∧
    (runOne cEnvNewFile (mkCreate "b.txt" .no .ok)).glob.dismissedFiles = [] ∧
    (runOne cEnvNewFile (mkCreate "b.txt" .no .ok)).glob.trace
      = [.dialog .createH "b.txt"] := by
  refine ⟨?_, ?_, ?_⟩ <;> decide

/-- C6 (amended to the keystroke flow): declining or dismissing a
keystroke-flow prompt stores a suppression entry for the path whose timer
duration is 100 ms, and once that timer fires (`expireTimer` removes the
entry) the same event for the path shows the dialog again. -/
theorem keystroke_decline_suppresses (e : Env) (p : String) (a : Answer)
    (pf pb : CmdRes) (m : Option Nat)
    (he : e.enabled = true) (hro : isReadOnly m = true) (hw : e.inWorkspace p = true)
    (ha : a ≠ .yes) :
    (runOne e (mkType p a pf pb m)).glob.dismissedFiles = [(p, 100)] ∧
    (runOne e (mkType p a pf pb m)).glob.trace = [.dialog .typeH p, .suppress p 100] ∧
    (∃ t, (run { env := e, insts := [mkType p a pf pb m],
                 glob := expireTimer p (runOne e (mkType p a pf pb m)).glob } seq8).glob.trace
          = (runOne e (mkType p a pf pb m)).glob.trace ++ .dialog .typeH p :: t) := by
  cases a with
  | yes => exact absurd rfl ha
  | no =>
    refine ⟨?_, ?_, ⟨[.suppress p 100], ?_⟩⟩ <;>
      simp [runOne, run, initCfg, initGlob, stepAt, stepInst, mkType, seq8,
            expireTimer, he, hro, hw, setKey, eraseKey, keyMem]
  | dismissed =>
    refine ⟨?_, ?_, ⟨[.suppress p 100], ?_⟩⟩ <;>
      simp [runOne, run, initCfg, initGlob, stepAt, stepInst, mkType, seq8,
            expireTimer, he, hro, hw, setKey, eraseKey, keyMem]

/-- Witness for the amended C6 at a concrete environment and path. -/
theorem keystroke_decline_suppresses_witness :
    (cEnvAll.enabled = true ∧ isReadOnly (some 0) = true ∧
     cEnvAll.inWorkspace "a.txt" = true ∧ Answer.no ≠ Answer.yes) ∧
    (runOne cEnvAll (mkType "a.txt" .no .ok .ok (some 0))).glob.dismissedFiles
      = [("a.txt", 100)] :=
  ⟨⟨rfl, rfl, rfl, by decide⟩,
   (keystroke_decline_suppresses cEnvAll "a.txt" .no .ok .ok (some 0)
      rfl rfl rfl (by decide)).1⟩

/-- Counterexample to C1 as stated: a tracked, in-workspace, non-ignored,
feature-enabled deletion event answered "No" still has the filesystem
deletion in its history — the `onDidDelete` watcher event fires only after
the file is gone and offers no cancellation, so the handler cannot veto the
removal; it merely skips the `p4 delete`. -/
theorem declined_deletion_proceeds :
    deleteEventTrace cEnvAll (mkDelete "c.txt" .no .ok)
      = [.fsDelete "c.txt", .dialog .deleteH "c.txt"] ∧
    .fsDelete "c.txt" ∈ deleteEventTrace cEnvAll (mkDelete "c.txt" .no .ok) := by
  refine ⟨?_, ?_⟩ <;> decide

/-- C1 (amended): on a deletion event answered "No" (or dismissed), the
handler takes no version-control action — no `p4 delete` is invoked — but
the filesystem deletion is part of the event's history regardless of the
answer (the watcher reports deletions after the fact and has no veto
channel), so the file does not remain on disk. -/
theorem declined_deletion_no_p4_action (e : Env) (p : String) (a : Answer)
    (cr : CmdRes) (ha : a ≠ .yes) :
    .fsDelete p ∈ deleteEventTrace e (mkDelete p a cr) ∧
    .p4delete p ∉ deleteEventTrace e (mkDelete p a cr) := by
  cases a with
  | yes => exact absurd rfl ha
  | no =>
    cases hi : e.ignored p <;> cases hen : e.enabled <;>
      cases hw : e.inWorkspace p <;> cases hp : e.inPerforce p <;>
      simp [deleteEventTrace, runOne, run, initCfg, initGlob, stepAt, stepInst,
            mkDelete, seq8, addPD, hi, hen, hw, hp]
  | dismissed =>
    cases hi : e.ignored p <;> cases hen : e.enabled <;>
      cases hw : e.inWorkspace p <;> cases hp : e.inPerforce p <;>
      simp [deleteEventTrace, runOne, run, initCfg, initGlob, stepAt, stepInst,
            mkDelete, seq8, addPD, hi, hen, hw, hp]

/-- Witness for the amended C1 at a concrete environment and path. -/
theorem declined_deletion_no_p4_action_witness :
    Answer.no ≠ Answer.yes ∧
    (.fsDelete "c.txt" ∈ deleteEventTrace cEnvAll (mkDelete "c.txt" .no .ok) ∧
     .p4delete "c.txt" ∉ deleteEventTrace cEnvAll (mkDelete "c.txt" .no .ok)) :=
  ⟨by decide, declined_deletion_no_p4_action cEnvAll "c.txt" .no .ok (by decide)⟩

/-- Counterexample to C2 as stated: on a confirmed deletion of a tracked
file, `p4 delete` is invoked, but never before the filesystem deletion — in
the event's history `p4delete` does not precede `fsDelete`. -/
theorem p4delete_not_before_fs_delete :
    precedes (.p4delete "c.txt") (.fsDelete "c.txt")
        (deleteEventTrace cEnvAll (mkDelete "c.txt" .yes .ok)) = false ∧
    .p4delete "c.txt" ∈ deleteEventTrace cEnvAll (mkDelete "c.txt" .yes .ok) := by
  refine ⟨?_, ?_⟩ <;> decide

/-- C2 (amended): for a tracked, in-workspace, non-ignored path with the
feature enabled, answering "Yes" invokes `p4 delete`, but only after the
filesystem deletion has already completed: in the event's history the
filesystem deletion strictly precedes the `p4 delete` invocation. -/
theorem confirmed_deletion_p4_after_fs (e : Env) (p : String) (cr : CmdRes)
    (hi : e.ignored p = false) (hen : e.enabled = true) (hw : e.inWorkspace p = true)
    (hp : e.inPerforce p = true) :
    precedes (.fsDelete p) (.p4delete p) (deleteEventTrace e (mkDelete p .yes cr)) = true := by
  cases cr <;>
    simp [deleteEventTrace, runOne, run, initCfg, initGlob, stepAt, stepInst,
          mkDelete, seq8, addPD, precedes, hi, hen, hw, hp]

/-- Witness for the amended C2 at a concrete environment and path. -/
theorem confirmed_deletion_p4_after_fs_witness :
    (cEnvAll.ignored "c.txt" = false ∧ cEnvAll.enabled = true ∧
     cEnvAll.inWorkspace "c.txt" = true ∧ cEnvAll.inPerforce "c.txt" = true) ∧
    precedes (.fsDelete "c.txt") (.p4delete "c.txt")
        (deleteEventTrace cEnvAll (mkDelete "c.txt" .yes .ok)) = true :=
  ⟨⟨rfl, rfl, rfl, rfl⟩,
   confirmed_deletion_p4_after_fs cEnvAll "c.txt" .ok rfl rfl rfl rfl⟩

/-! ## The at-most-one-dialog invariant (claim C3)

`dOwn p` / `cOwn p` hold for a delete/create handler instance from the
moment it adds `p` to `pendingDialogs` (its dialog opens) until its `finally`
removes it; `tOwn` holds for a `type` handler instance from the moment it
sets `pendingPrompt` until its `finally` clears it.  A dialog is open
exactly at `pc = awaitDialog`, which lies inside the owning region. -/

/-- The instance is a delete handler holding the `pendingDialogs` marker
for `p`. -/
def dOwn (p : String) (i : Inst) : Bool :=
  match i.kind, i.pc with
  | .deleteH, .awaitDialog => i.path == p
  | .deleteH, .awaitCmd => i.path == p
  | _, _ => false

/-- The instance is a create handler holding the `pendingDialogs` marker
for `p`. -/
def cOwn (p : String) (i : Inst) : Bool :=
  match i.kind, i.pc with
  | .createH, .awaitDialog => i.path == p
  | .createH, .awaitCmd => i.path == p
  | _, _ => false

/-- The instance is a type handler holding the global `pendingPrompt`
marker. -/
def tOwn (i : Inst) : Bool :=
  match i.kind, i.pc with
  | .typeH, .awaitWorkspace => true
  | .typeH, .awaitDialog => true
  | .typeH, .awaitCmd => true
  | _, _ => false

/-- Counting lemma: replacing element `n` changes `countP` by the difference
of the predicate's value at the old and new element. -/
theorem countP_set_add (q : Inst → Bool) (l : List Inst) (n : Nat) (b : Inst)
    (h : n < l.length) :
    (l.set n b).countP q + (if q l[n] then 1 else 0)
      = l.countP q + (if q b then 1 else 0) := by
  induction l generalizing n with
  | nil => simp at h
  | cons hd tl ih =>
    cases n with
    | zero =>
      simp only [List.set_cons_zero, List.countP_cons, List.getElem_cons_zero]
      omega
    | succ k =>
      simp only [List.set_cons_succ, List.countP_cons, List.getElem_cons_succ]
      have := ih k (by simpa using h)
      omega

theorem countP_set_of_eq (q : Inst → Bool) (l : List Inst) (n : Nat) (b : Inst)
    (h : n < l.length) (hq : q b = q l[n]) :
    (l.set n b).countP q = l.countP q := by
  have := countP_set_add q l n b h
  rw [hq] at this
  omega

theorem countP_set_mark (q : Inst → Bool) (l : List Inst) (n : Nat) (b : Inst)
    (h : n < l.length) (ho : q l[n] = false) (hb : q b = true) :
    (l.set n b).countP q = l.countP q + 1 := by
  have := countP_set_add q l n b h
  rw [ho, hb] at this
  simpa using this

theorem countP_set_clear (q : Inst → Bool) (l : List Inst) (n : Nat) (b : Inst)
    (h : n < l.length) (ho : q l[n] = true) (hb : q b = false) :
    (l.set n b).countP q + 1 = l.countP q := by
  have := countP_set_add q l n b h
  rw [ho, hb] at this
  simpa using this

theorem countP_ne_zero_of_get (q : Inst → Bool) (l : List Inst) (n : Nat)
    (hn : n < l.length) (hq : q l[n] = true) : l.countP q ≠ 0 := by
  intro h0
  exact absurd hq (by simpa using (List.countP_eq_zero.mp h0) l[n] (l.getElem_mem hn))

theorem countP_le_countP (q r : Inst → Bool) (l : List Inst)
    (h : ∀ a, q a = true → r a = true) :
    l.countP q ≤ l.countP r := by
  induction l with
  | nil => simp
  | cons hd tl ih =>
    simp only [List.countP_cons]
    cases hq : q hd
    · have : (if r hd then 1 else 0) ≥ 0 := Nat.zero_le _
      cases hr : r hd <;> simp <;> omega
    · rw [h hd hq]
      simpa using ih

/-- Membership is preserved by `addPD`. -/
theorem mem_addPD (p q : String) (l : List String) (h : q ∈ l) : q ∈ addPD p l := by
  unfold addPD
  split
  · exact h
  · exact List.mem_cons_of_mem _ h

/-- The run-time invariant relating the owner regions to the shared
markers. -/
structure Inv (c : Config) : Prop where
  nd : c.glob.pendingDialogs.Nodup
  delNoP : ∀ p, c.env.inPerforce p = false → c.insts.countP (dOwn p) = 0
  crP : ∀ p, c.env.inPerforce p = true → c.insts.countP (cOwn p) = 0
  delPD : ∀ p, p ∉ c.glob.pendingDialogs → c.insts.countP (dOwn p) = 0
  delOne : ∀ p, c.insts.countP (dOwn p) ≤ 1
  tyOne : c.insts.countP tOwn ≤ 1
  tyPr : c.glob.pendingPrompt = false → c.insts.countP tOwn = 0

/-- A step that changes no owner status and neither `pendingDialogs` nor
`pendingPrompt` preserves the invariant. -/
theorem inv_same (c : Config) (n : Nat) (b : Inst) (g' : Glob) (h : Inv c)
    (hn : n < c.insts.length)
    (hdq : ∀ p, dOwn p b = dOwn p c.insts[n])
    (hcq : ∀ p, cOwn p b = cOwn p c.insts[n])
    (htq : tOwn b = tOwn c.insts[n])
    (hpd : g'.pendingDialogs = c.glob.pendingDialogs)
    (hpp : g'.pendingPrompt = c.glob.pendingPrompt) :
    Inv { env := c.env, insts := c.insts.set n b, glob := g' } := by
  constructor
  · rw [hpd]; exact h.nd
  · intro p hp
    rw [countP_set_of_eq _ _ _ _ hn (hdq p)]; exact h.delNoP p hp
  · intro p hp
    rw [countP_set_of_eq _ _ _ _ hn (hcq p)]; exact h.crP p hp
  · intro p hp
    rw [hpd] at hp
    rw [countP_set_of_eq _ _ _ _ hn (hdq p)]; exact h.delPD p hp
  · intro p
    rw [countP_set_of_eq _ _ _ _ hn (hdq p)]; exact h.delOne p
  · rw [countP_set_of_eq _ _ _ _ hn htq]; exact h.tyOne
  · intro hpp'
    rw [hpp] at hpp'
    rw [countP_set_of_eq _ _ _ _ hn htq]; exact h.tyPr hpp'

/-- A delete handler acquiring the marker for `p₀` (its `pendingDialogs.has`
guard just passed) preserves the invariant. -/
theorem inv_delMark (c : Config) (n : Nat) (b : Inst) (g' : Glob) (p₀ : String) (h : Inv c)
    (hn : n < c.insts.length)
    (hdq : ∀ p, p ≠ p₀ → dOwn p b = dOwn p c.insts[n])
    (hdo : dOwn p₀ c.insts[n] = false) (hdb : dOwn p₀ b = true)
    (hcq : ∀ p, cOwn p b = cOwn p c.insts[n])
    (htq : tOwn b = tOwn c.insts[n])
    (hP : c.env.inPerforce p₀ = true)
    (hC : p₀ ∉ c.glob.pendingDialogs)
    (hpd : g'.pendingDialogs = p₀ :: c.glob.pendingDialogs)
    (hpp : g'.pendingPrompt = c.glob.pendingPrompt) :
    Inv { env := c.env, insts := c.insts.set n b, glob := g' } := by
  constructor
  · rw [hpd]; exact List.nodup_cons.mpr ⟨hC, h.nd⟩
  · intro p hp
    by_cases hp0 : p = p₀
    · rw [hp0] at hp; rw [hp] at hP; cases hP
    · rw [countP_set_of_eq _ _ _ _ hn (hdq p hp0)]; exact h.delNoP p hp
  · intro p hp
    rw [countP_set_of_eq _ _ _ _ hn (hcq p)]; exact h.crP p hp
  · intro p hp
    rw [hpd] at hp
    simp only [List.mem_cons, not_or] at hp
    rw [countP_set_of_eq _ _ _ _ hn (hdq p hp.1)]; exact h.delPD p hp.2
  · intro p
    by_cases hp0 : p = p₀
    · subst hp0
      rw [countP_set_mark _ _ _ _ hn hdo hdb, h.delPD p hC]
    · rw [countP_set_of_eq _ _ _ _ hn (hdq p hp0)]; exact h.delOne p
  · rw [countP_set_of_eq _ _ _ _ hn htq]; exact h.tyOne
  · intro hpp'
    rw [hpp] at hpp'
    rw [countP_set_of_eq _ _ _ _ hn htq]; exact h.tyPr hpp'

/-- A delete handler releasing the marker for `p₀` (its `finally`) preserves
the invariant. -/
theorem inv_delClear (c : Config) (n : Nat) (b : Inst) (g' : Glob) (p₀ : String) (h : Inv c)
    (hn : n < c.insts.length)
    (hdq : ∀ p, p ≠ p₀ → dOwn p b = dOwn p c.insts[n])
    (hdo : dOwn p₀ c.insts[n] = true) (hdb : dOwn p₀ b = false)
    (hcq : ∀ p, cOwn p b = cOwn p c.insts[n])
    (htq : tOwn b = tOwn c.insts[n])
    (hpd : g'.pendingDialogs = c.glob.pendingDialogs.erase p₀)
    (hpp : g'.pendingPrompt = c.glob.pendingPrompt) :
    Inv { env := c.env, insts := c.insts.set n b, glob := g' } := by
  have hzero : (c.insts.set n b).countP (dOwn p₀) = 0 := by
    have hc := countP_set_clear _ _ _ _ hn hdo hdb
    have ho := h.delOne p₀
    omega
  constructor
  · rw [hpd]; exact h.nd.erase p₀
  · intro p hp
    by_cases hp0 : p = p₀
    · rw [hp0]; exact hzero
    · rw [countP_set_of_eq _ _ _ _ hn (hdq p hp0)]; exact h.delNoP p hp
  · intro p hp
    rw [countP_set_of_eq _ _ _ _ hn (hcq p)]; exact h.crP p hp
  · intro p hp
    by_cases hp0 : p = p₀
    · rw [hp0]; exact hzero
    · rw [hpd] at hp
      have hnm : p ∉ c.glob.pendingDialogs := fun hm =>
        hp ((List.mem_erase_of_ne hp0).mpr hm)
      rw [countP_set_of_eq _ _ _ _ hn (hdq p hp0)]; exact h.delPD p hnm
  · intro p
    by_cases hp0 : p = p₀
    · rw [hp0, hzero]; omega
    · rw [countP_set_of_eq _ _ _ _ hn (hdq p hp0)]; exact h.delOne p
  · rw [countP_set_of_eq _ _ _ _ hn htq]; exact h.tyOne
  · intro hpp'
    rw [hpp] at hpp'
    rw [countP_set_of_eq _ _ _ _ hn htq]; exact h.tyPr hpp'

/-- A create handler acquiring the marker for `p₀` preserves the
invariant. -/
theorem inv_crMark (c : Config) (n : Nat) (b : Inst) (g' : Glob) (p₀ : String) (h : Inv c)
    (hn : n < c.insts.length)
    (hcq : ∀ p, p ≠ p₀ → cOwn p b = cOwn p c.insts[n])
    (hcb : cOwn p₀ b = true)
    (hdq : ∀ p, dOwn p b = dOwn p c.insts[n])
    (htq : tOwn b = tOwn c.insts[n])
    (hP : c.env.inPerforce p₀ = false)
    (hpd : g'.pendingDialogs = addPD p₀ c.glob.pendingDialogs)
    (hpp : g'.pendingPrompt = c.glob.pendingPrompt) :
    Inv { env := c.env, insts := c.insts.set n b, glob := g' } := by
  constructor
  · rw [hpd]
    unfold addPD
    split
    · exact h.nd
    · next hct =>
      refine List.nodup_cons.mpr ⟨?_, h.nd⟩
      intro hm
      exact hct ((contains_true_iff _ _).mpr hm)
  · intro p hp
    rw [countP_set_of_eq _ _ _ _ hn (hdq p)]; exact h.delNoP p hp
  · intro p hp
    by_cases hp0 : p = p₀
    · rw [hp0] at hp; rw [hp] at hP; cases hP
    · rw [countP_set_of_eq _ _ _ _ hn (hcq p hp0)]; exact h.crP p hp
  · intro p hp
    rw [hpd] at hp
    have hnm : p ∉ c.glob.pendingDialogs := fun hm => hp (mem_addPD _ _ _ hm)
    rw [countP_set_of_eq _ _ _ _ hn (hdq p)]; exact h.delPD p hnm
  · intro p
    rw [countP_set_of_eq _ _ _ _ hn (hdq p)]; exact h.delOne p
  · rw [countP_set_of_eq _ _ _ _ hn htq]; exact h.tyOne
  · intro hpp'
    rw [hpp] at hpp'
    rw [countP_set_of_eq _ _ _ _ hn htq]; exact h.tyPr hpp'

/-- A create handler releasing the marker for `p₀` (its `finally`) preserves
the invariant. -/
theorem inv_crClear (c : Config) (n : Nat) (b : Inst) (g' : Glob) (p₀ : String) (h : Inv c)
    (hn : n < c.insts.length)
    (hcq : ∀ p, p ≠ p₀ → cOwn p b = cOwn p c.insts[n])
    (hco : cOwn p₀ c.insts[n] = true) (hcb : cOwn p₀ b = false)
    (hdq : ∀ p, dOwn p b = dOwn p c.insts[n])
    (htq : tOwn b = tOwn c.insts[n])
    (hpd : g'.pendingDialogs = c.glob.pendingDialogs.erase p₀)
    (hpp : g'.pendingPrompt = c.glob.pendingPrompt) :
    Inv { env := c.env, insts := c.insts.set n b, glob := g' } := by
  have hP : c.env.inPerforce p₀ = false := by
    cases hPe : c.env.inPerforce p₀
    · rfl
    · exact absurd (h.crP p₀ hPe) (countP_ne_zero_of_get _ _ _ hn hco)
  constructor
  · rw [hpd]; exact h.nd.erase p₀
  · intro p hp
    rw [countP_set_of_eq _ _ _ _ hn (hdq p)]; exact h.delNoP p hp
  · intro p hp
    by_cases hp0 : p = p₀
    · rw [hp0] at hp; rw [hp] at hP; cases hP
    · rw [countP_set_of_eq _ _ _ _ hn (hcq p hp0)]; exact h.crP p hp
  · intro p hp
    by_cases hp0 : p = p₀
    · rw [hp0, countP_set_of_eq _ _ _ _ hn (hdq p₀)]; exact h.delNoP p₀ hP
    · rw [hpd] at hp
      have hnm : p ∉ c.glob.pendingDialogs := fun hm =>
        hp ((List.mem_erase_of_ne hp0).mpr hm)
      rw [countP_set_of_eq _ _ _ _ hn (hdq p)]; exact h.delPD p hnm
  · intro p
    rw [countP_set_of_eq _ _ _ _ hn (hdq p)]; exact h.delOne p
  · rw [countP_set_of_eq _ _ _ _ hn htq]; exact h.tyOne
  · intro hpp'
    rw [hpp] at hpp'
    rw [countP_set_of_eq _ _ _ _ hn htq]; exact h.tyPr hpp'

/-- A type handler acquiring the `pendingPrompt` marker (its synchronous
prefix, with the guard `pendingPrompt = false`) preserves the invariant. -/
theorem inv_tyMark (c : Config) (n : Nat) (b : Inst) (g' : Glob) (h : Inv c)
    (hn : n < c.insts.length)
    (hto : tOwn c.insts[n] = false) (htb : tOwn b = true)
    (hdq : ∀ p, dOwn p b = dOwn p c.insts[n])
    (hcq : ∀ p, cOwn p b = cOwn p c.insts[n])
    (hPr : c.glob.pendingPrompt = false)
    (hpd : g'.pendingDialogs = c.glob.pendingDialogs)
    (hpp : g'.pendingPrompt = true) :
    Inv { env := c.env, insts := c.insts.set n b, glob := g' } := by
  constructor
  · rw [hpd]; exact h.nd
  · intro p hp
    rw [countP_set_of_eq _ _ _ _ hn (hdq p)]; exact h.delNoP p hp
  · intro p hp
    rw [countP_set_of_eq _ _ _ _ hn (hcq p)]; exact h.crP p hp
  · intro p hp
    rw [hpd] at hp
    rw [countP_set_of_eq _ _ _ _ hn (hdq p)]; exact h.delPD p hp
  · intro p
    rw [countP_set_of_eq _ _ _ _ hn (hdq p)]; exact h.delOne p
  · rw [countP_set_mark _ _ _ _ hn hto htb, h.tyPr hPr]
  · intro hpp'
    rw [hpp] at hpp'; cases hpp'

/-- A type handler releasing the `pendingPrompt` marker (its `finally`)
preserves the invariant. -/
theorem inv_tyClear (c : Config) (n : Nat) (b : Inst) (g' : Glob) (h : Inv c)
    (hn : n < c.insts.length)
    (hto : tOwn c.insts[n] = true) (htb : tOwn b = false)
    (hdq : ∀ p, dOwn p b = dOwn p c.insts[n])
    (hcq : ∀ p, cOwn p b = cOwn p c.insts[n])
    (hpd : g'.pendingDialogs = c.glob.pendingDialogs)
    (hpp : g'.pendingPrompt = false) :
    Inv { env := c.env, insts := c.insts.set n b, glob := g' } := by
  have hzero : (c.insts.set n b).countP tOwn = 0 := by
    have hc := countP_set_clear _ _ _ _ hn hto htb
    have ho := h.tyOne
    omega
  constructor
  · rw [hpd]; exact h.nd
  · intro p hp
    rw [countP_set_of_eq _ _ _ _ hn (hdq p)]; exact h.delNoP p hp
  · intro p hp
    rw [countP_set_of_eq _ _ _ _ hn (hcq p)]; exact h.crP p hp
  · intro p hp
    rw [hpd] at hp
    rw [countP_set_of_eq _ _ _ _ hn (hdq p)]; exact h.delPD p hp
  · intro p
    rw [countP_set_of_eq _ _ _ _ hn (hdq p)]; exact h.delOne p
  · rw [hzero]; omega
  · intro _; exact hzero

theorem addPD_not_contains (p : String) (l : List String) (h : l.contains p = false) :
    addPD p l = p :: l := by
  unfold addPD
  rw [h]
  rfl

/-- Every scheduler step preserves the invariant. -/
theorem inv_stepAt (c : Config) (n : Nat) (h : Inv c) : Inv (stepAt c n) := by
  rcases hc : c.insts[n]? with _ | i
  · unfold stepAt
    rw [hc]
    exact h
  obtain ⟨hn, hi⟩ := List.getElem?_eq_some.mp hc
  unfold stepAt
  rw [hc]
  cases hk : i.kind with
  | typeH =>
    cases hpc : i.pc with
    | start =>
      simp only [stepInst, hk, hpc]
      cases h1 : (!i.hasEditor || !i.schemeFile || !c.env.enabled || !(isReadOnly i.statMode)) with
      | true =>
        simp
        exact inv_same c n _ _ h hn
          (fun p => by rw [hi]; simp [dOwn, hk, hpc])
          (fun p => by rw [hi]; simp [cOwn, hk, hpc])
          (by rw [hi]; simp [tOwn, hk, hpc])
          rfl rfl
      | false =>
        cases h2 : keyMem i.path c.glob.dismissedFiles with
        | true =>
          simp
          exact inv_same c n _ _ h hn
            (fun p => by rw [hi]; simp [dOwn, hk, hpc])
            (fun p => by rw [hi]; simp [cOwn, hk, hpc])
            (by rw [hi]; simp [tOwn, hk, hpc])
            rfl rfl
        | false =>
          cases h3 : c.glob.pendingPrompt with
          | true =>
            simp
            exact inv_same c n _ _ h hn
              (fun p => by rw [hi]; simp [dOwn, hk, hpc])
              (fun p => by rw [hi]; simp [cOwn, hk, hpc])
              (by rw [hi]; simp [tOwn, hk, hpc])
              rfl rfl
          | false =>
            simp
            refine inv_tyMark c n _ _ h hn ?_ ?_ ?_ ?_ h3 rfl rfl
            · rw [hi]; simp [tOwn, hk, hpc]
            · simp [tOwn, hk]
            · intro p; rw [hi]; simp [dOwn, hk]
            · intro p; rw [hi]; simp [cOwn, hk]
    | awaitIgnored =>
      simp only [stepInst, hk, hpc]
      exact inv_same c n _ _ h hn
        (fun p => by rw [hi])
        (fun p => by rw [hi])
        (by rw [hi])
        rfl rfl
    | awaitWorkspace =>
      simp only [stepInst, hk, hpc]
      cases hW : c.env.inWorkspace i.path with
      | false =>
        simp
        refine inv_tyClear c n _ _ h hn ?_ ?_ ?_ ?_ rfl rfl
        · rw [hi]; simp [tOwn, hk, hpc]
        · simp [tOwn, hk]
        · intro p; rw [hi]; simp [dOwn, hk]
        · intro p; rw [hi]; simp [cOwn, hk]
      | true =>
        simp
        exact inv_same c n _ _ h hn
          (fun p => by rw [hi]; simp [dOwn, hk, hpc])
          (fun p => by rw [hi]; simp [cOwn, hk, hpc])
          (by rw [hi]; simp [tOwn, hk, hpc])
          rfl rfl
    | awaitFstat =>
      simp only [stepInst, hk, hpc]
      exact inv_same c n _ _ h hn
        (fun p => by rw [hi])
        (fun p => by rw [hi])
        (by rw [hi])
        rfl rfl
    | awaitDialog =>
      simp only [stepInst, hk, hpc]
      cases ha : i.answer with
      | yes =>
        simp
        exact inv_same c n _ _ h hn
          (fun p => by rw [hi]; simp [dOwn, hk, hpc])
          (fun p => by rw [hi]; simp [cOwn, hk, hpc])
          (by rw [hi]; simp [tOwn, hk, hpc])
          rfl rfl
      | no =>
        simp
        refine inv_tyClear c n _ _ h hn ?_ ?_ ?_ ?_ rfl rfl
        · rw [hi]; simp [tOwn, hk, hpc]
        · simp [tOwn, hk]
        · intro p; rw [hi]; simp [dOwn, hk]
        · intro p; rw [hi]; simp [cOwn, hk]
      | dismissed =>
        simp
        refine inv_tyClear c n _ _ h hn ?_ ?_ ?_ ?_ rfl rfl
        · rw [hi]; simp [tOwn, hk, hpc]
        · simp [tOwn, hk]
        · intro p; rw [hi]; simp [dOwn, hk]
        · intro p; rw [hi]; simp [cOwn, hk]
    | awaitCmd =>
      simp only [stepInst, hk, hpc]
      cases hS : (executePerforceEdit i.primary i.fallback).success with
      | true =>
        simp
        refine inv_tyClear c n _ _ h hn ?_ ?_ ?_ ?_ rfl rfl
        · rw [hi]; simp [tOwn, hk, hpc]
        · simp [tOwn, hk]
        · intro p; rw [hi]; simp [dOwn, hk]
        · intro p; rw [hi]; simp [cOwn, hk]
      | false =>
        simp
        refine inv_tyClear c n _ _ h hn ?_ ?_ ?_ ?_ rfl rfl
        · rw [hi]; simp [tOwn, hk, hpc]
        · simp [tOwn, hk]
        · intro p; rw [hi]; simp [dOwn, hk]
        · intro p; rw [hi]; simp [cOwn, hk]
    | done =>
      simp only [stepInst, hk, hpc]
      exact inv_same c n _ _ h hn
        (fun p => by rw [hi])
        (fun p => by rw [hi])
        (by rw [hi])
        rfl rfl
  | createH =>
    cases hpc : i.pc with
    | start =>
      simp only [stepInst, hk, hpc]
      exact inv_same c n _ _ h hn
        (fun p => by rw [hi]; simp [dOwn, hk, hpc])
        (fun p => by rw [hi]; simp [cOwn, hk, hpc])
        (by rw [hi]; simp [tOwn, hk, hpc])
        rfl rfl
    | awaitIgnored =>
      simp only [stepInst, hk, hpc]
      cases hI : c.env.ignored i.path <;> cases hE : c.env.enabled <;> simp <;>
        exact inv_same c n _ _ h hn
          (fun p => by rw [hi]; simp [dOwn, hk, hpc])
          (fun p => by rw [hi]; simp [cOwn, hk, hpc])
          (by rw [hi]; simp [tOwn, hk, hpc])
          rfl rfl
    | awaitWorkspace =>
      simp only [stepInst, hk, hpc]
      cases hW : c.env.inWorkspace i.path <;>
        cases hCt : c.glob.pendingDialogs.contains i.path <;> simp <;>
        exact inv_same c n _ _ h hn
          (fun p => by rw [hi]; simp [dOwn, hk, hpc])
          (fun p => by rw [hi]; simp [cOwn, hk, hpc])
          (by rw [hi]; simp [tOwn, hk, hpc])
          rfl rfl
    | awaitFstat =>
      simp only [stepInst, hk, hpc]
      cases hP : c.env.inPerforce i.path with
      | true =>
        simp
        exact inv_same c n _ _ h hn
          (fun p => by rw [hi]; simp [dOwn, hk, hpc])
          (fun p => by rw [hi]; simp [cOwn, hk, hpc])
          (by rw [hi]; simp [tOwn, hk, hpc])
          rfl rfl
      | false =>
        simp
        refine inv_crMark c n _ _ i.path h hn ?_ ?_ ?_ ?_ hP rfl rfl
        · intro p hp
          rw [hi]; simp [cOwn, hk, hpc]
          exact fun hh => hp hh.symm
        · simp [cOwn, hk]
        · intro p; rw [hi]; simp [dOwn, hk]
        · rw [hi]; simp [tOwn, hk]
    | awaitDialog =>
      simp only [stepInst, hk, hpc]
      cases ha : i.answer with
      | yes =>
        simp
        exact inv_same c n _ _ h hn
          (fun p => by rw [hi]; simp [dOwn, hk, hpc])
          (fun p => by rw [hi]; simp [cOwn, hk, hpc])
          (by rw [hi]; simp [tOwn, hk, hpc])
          rfl rfl
      | no =>
        simp
        refine inv_crClear c n _ _ i.path h hn ?_ ?_ ?_ ?_ ?_ rfl rfl
        · intro p hp
          rw [hi]; simp [cOwn, hk, hpc]
          exact fun hh => hp hh.symm
        · rw [hi]; simp [cOwn, hk, hpc]
        · simp [cOwn, hk]
        · intro p; rw [hi]; simp [dOwn, hk]
        · rw [hi]; simp [tOwn, hk]
      | dismissed =>
        simp
        refine inv_crClear c n _ _ i.path h hn ?_ ?_ ?_ ?_ ?_ rfl rfl
        · intro p hp
          rw [hi]; simp [cOwn, hk, hpc]
          exact fun hh => hp hh.symm
        · rw [hi]; simp [cOwn, hk, hpc]
        · simp [cOwn, hk]
        · intro p; rw [hi]; simp [dOwn, hk]
        · rw [hi]; simp [tOwn, hk]
    | awaitCmd =>
      simp only [stepInst, hk, hpc]
      simp
      refine inv_crClear c n _ _ i.path h hn ?_ ?_ ?_ ?_ ?_ rfl rfl
      · intro p hp
        rw [hi]; simp [cOwn, hk, hpc]
        exact fun hh => hp hh.symm
      · rw [hi]; simp [cOwn, hk, hpc]
      · simp [cOwn, hk]
      · intro p; rw [hi]; simp [dOwn, hk]
      · rw [hi]; simp [tOwn, hk]
    | done =>
      simp only [stepInst, hk, hpc]
      exact inv_same c n _ _ h hn
        (fun p => by rw [hi])
        (fun p => by rw [hi])
        (by rw [hi])
        rfl rfl
  | deleteH =>
    cases hpc : i.pc with
    | start =>
      simp only [stepInst, hk, hpc]
      exact inv_same c n _ _ h hn
        (fun p => by rw [hi]; simp [dOwn, hk, hpc])
        (fun p => by rw [hi]; simp [cOwn, hk, hpc])
        (by rw [hi]; simp [tOwn, hk, hpc])
        rfl rfl
    | awaitIgnored =>
      simp only [stepInst, hk, hpc]
      cases hI : c.env.ignored i.path <;> cases hE : c.env.enabled <;> simp <;>
        exact inv_same c n _ _ h hn
          (fun p => by rw [hi]; simp [dOwn, hk, hpc])
          (fun p => by rw [hi]; simp [cOwn, hk, hpc])
          (by rw [hi]; simp [tOwn, hk, hpc])
          rfl rfl
    | awaitWorkspace =>
      simp only [stepInst, hk, hpc]
      cases hW : c.env.inWorkspace i.path <;> simp <;>
        exact inv_same c n _ _ h hn
          (fun p => by rw [hi]; simp [dOwn, hk, hpc])
          (fun p => by rw [hi]; simp [cOwn, hk, hpc])
          (by rw [hi]; simp [tOwn, hk, hpc])
          rfl rfl
    | awaitFstat =>
      simp only [stepInst, hk, hpc]
      cases hP : c.env.inPerforce i.path with
      | false =>
        simp
        exact inv_same c n _ _ h hn
          (fun p => by rw [hi]; simp [dOwn, hk, hpc])
          (fun p => by rw [hi]; simp [cOwn, hk, hpc])
          (by rw [hi]; simp [tOwn, hk, hpc])
          rfl rfl
      | true =>
        cases hCt : c.glob.pendingDialogs.contains i.path with
        | true =>
          simp
          exact inv_same c n _ _ h hn
            (fun p => by rw [hi]; simp [dOwn, hk, hpc])
            (fun p => by rw [hi]; simp [cOwn, hk, hpc])
            (by rw [hi]; simp [tOwn, hk, hpc])
            rfl rfl
        | false =>
          simp
          have hC : i.path ∉ c.glob.pendingDialogs := by
            intro hm
            rw [(contains_true_iff _ _).mpr hm] at hCt
            exact Bool.noConfusion hCt
          refine inv_delMark c n _ _ i.path h hn ?_ ?_ ?_ ?_ ?_ hP hC ?_ rfl
          · intro p hp
            rw [hi]; simp [dOwn, hk, hpc]
            exact fun hh => hp hh.symm
          · rw [hi]; simp [dOwn, hk, hpc]
          · simp [dOwn, hk]
          · intro p; rw [hi]; simp [cOwn, hk, hpc]
          · rw [hi]; simp [tOwn, hk, hpc]
          · show addPD i.path c.glob.pendingDialogs = i.path :: c.glob.pendingDialogs
            exact addPD_not_contains _ _ hCt
    | awaitDialog =>
      simp only [stepInst, hk, hpc]
      cases ha : i.answer with
      | yes =>
        simp
        exact inv_same c n _ _ h hn
          (fun p => by rw [hi]; simp [dOwn, hk, hpc])
          (fun p => by rw [hi]; simp [cOwn, hk, hpc])
          (by rw [hi]; simp [tOwn, hk, hpc])
          rfl rfl
      | no =>
        simp
        refine inv_delClear c n _ _ i.path h hn ?_ ?_ ?_ ?_ ?_ rfl rfl
        · intro p hp
          rw [hi]; simp [dOwn, hk, hpc]
          exact fun hh => hp hh.symm
        · rw [hi]; simp [dOwn, hk, hpc]
        · simp [dOwn, hk]
        · intro p; rw [hi]; simp [cOwn, hk]
        · rw [hi]; simp [tOwn, hk]
      | dismissed =>
        simp
        refine inv_delClear c n _ _ i.path h hn ?_ ?_ ?_ ?_ ?_ rfl rfl
        · intro p hp
          rw [hi]; simp [dOwn, hk, hpc]
          exact fun hh => hp hh.symm
        · rw [hi]; simp [dOwn, hk, hpc]
        · simp [dOwn, hk]
        · intro p; rw [hi]; simp [cOwn, hk]
        · rw [hi]; simp [tOwn, hk]
    | awaitCmd =>
      simp only [stepInst, hk, hpc]
      simp
      refine inv_delClear c n _ _ i.path h hn ?_ ?_ ?_ ?_ ?_ rfl rfl
      · intro p hp
        rw [hi]; simp [dOwn, hk, hpc]
        exact fun hh => hp hh.symm
      · rw [hi]; simp [dOwn, hk, hpc]
      · simp [dOwn, hk]
      · intro p; rw [hi]; simp [cOwn, hk]
      · rw [hi]; simp [tOwn, hk]
    | done =>
      simp only [stepInst, hk, hpc]
      exact inv_same c n _ _ h hn
        (fun p => by rw [hi])
        (fun p => by rw [hi])
        (by rw [hi])
        rfl rfl

/-- At `activate`, with every handler freshly invoked, the invariant holds. -/
theorem inv_init (e : Env) (l : List Inst) (hl : ∀ i ∈ l, i.pc = .start) :
    Inv (initCfg e l) := by
  constructor
  · simp [initCfg, initGlob]
  · intro p _
    exact List.countP_eq_zero.mpr
      (fun a ha => by cases hka : a.kind <;> simp [dOwn, hka, hl a ha])
  · intro p _
    exact List.countP_eq_zero.mpr
      (fun a ha => by cases hka : a.kind <;> simp [cOwn, hka, hl a ha])
  · intro p _
    exact List.countP_eq_zero.mpr
      (fun a ha => by cases hka : a.kind <;> simp [dOwn, hka, hl a ha])
  · intro p
    rw [List.countP_eq_zero.mpr
      (fun a ha => by cases hka : a.kind <;> simp [dOwn, hka, hl a ha])]
    omega
  · rw [List.countP_eq_zero.mpr
      (fun a ha => by cases hka : a.kind <;> simp [tOwn, hka, hl a ha])]
    omega
  · intro _
    exact List.countP_eq_zero.mpr
      (fun a ha => by cases hka : a.kind <;> simp [tOwn, hka, hl a ha])

/-- The invariant holds in every reachable configuration. -/
theorem inv_run (c : Config) (sched : List Nat) (h : Inv c) : Inv (run c sched) := by
  induction sched generalizing c with
  | nil => exact h
  | cons m rest ih => exact ih _ (inv_stepAt c m h)

/-- Counterexample to C3 as stated: two creation events for the same path,
delivered back to back and interleaved at their `await` points (the FIFO
microtask order of the event loop), both pass the `pendingDialogs.has` guard
— which the creation handler runs *before* its `isFileInPerforce`
suspension — and both reach the modal: two confirmation dialogs are
outstanding for one path at the same instant, the second event neither
dropped nor queued. -/
theorem create_double_dialog :
    2 ≤ (run (initCfg cEnvNewFile [mkCreate "a.txt" .yes .ok, mkCreate "a.txt" .yes .ok])
          [0, 1, 0, 1, 0, 1, 0, 1]).insts.countP
        (fun i => i.path == "a.txt" && i.pc == Pc.awaitDialog) := by
  decide

/-- C3 (amended): the at-most-one-outstanding-dialog guarantee holds for the
deletion flow (per path) and the keystroke flow (globally) across all
event-loop interleavings of any set of freshly invoked handlers — but not
for the creation flow, whose pending-dialog check runs before its tracking
query suspension. -/
theorem delete_and_type_dialog_unique (e : Env) (l : List Inst) (sched : List Nat)
    (p : String) (hl : ∀ i ∈ l, i.pc = .start) :
    (run (initCfg e l) sched).insts.countP
        (fun i => i.kind == HKind.deleteH && (i.path == p && i.pc == Pc.awaitDialog)) ≤ 1 ∧
    (run (initCfg e l) sched).insts.countP
        (fun i => i.kind == HKind.typeH && i.pc == Pc.awaitDialog) ≤ 1 := by
  have h := inv_run _ sched (inv_init e l hl)
  constructor
  · refine le_trans (countP_le_countP _ _ _ ?_) (h.delOne p)
    intro a ha
    simp only [Bool.and_eq_true, beq_iff_eq] at ha
    obtain ⟨hk', hp', hpc'⟩ := ha
    simp [dOwn, hk', hpc', hp']
  · refine le_trans (countP_le_countP _ _ _ ?_) h.tyOne
    intro a ha
    simp only [Bool.and_eq_true, beq_iff_eq] at ha
    obtain ⟨hk', hpc'⟩ := ha
    simp [tOwn, hk', hpc']

/-- Witness for the amended C3 at a concrete environment, instance list, and
schedule. -/
theorem delete_and_type_dialog_unique_witness :
    (∀ i ∈ [mkDelete "c.txt" .no .ok, mkDelete "c.txt" .yes .ok], i.pc = Pc.start) ∧
    ((run (initCfg cEnvAll [mkDelete "c.txt" .no .ok, mkDelete "c.txt" .yes .ok])
          [0, 1, 0, 1, 0, 1, 0, 1]).insts.countP
        (fun i => i.kind == HKind.deleteH &&
          (i.path == "c.txt" && i.pc == Pc.awaitDialog)) ≤ 1 ∧
     (run (initCfg cEnvAll [mkDelete "c.txt" .no .ok, mkDelete "c.txt" .yes .ok])
          [0, 1, 0, 1, 0, 1, 0, 1]).insts.countP
        (fun i => i.kind == HKind.typeH && i.pc == Pc.awaitDialog) ≤ 1) :=
  ⟨by decide,
   delete_and_type_dialog_unique cEnvAll
     [mkDelete "c.txt" .no .ok, mkDelete "c.txt" .yes .ok]
     [0, 1, 0, 1, 0, 1, 0, 1] "c.txt" (by decide)⟩

set_option maxHeartbeats 2000000 in
theorem marker_cleared_typeH (e : Env) (p : String) (a : Answer)
    (pf pb cr : CmdRes) (m : Option Nat) (he hs : Bool) :
    (runOne e ⟨.typeH, p, a, pf, pb, cr, m, he, hs, .start⟩).glob.pendingPrompt = false ∧
    (runOne e ⟨.typeH, p, a, pf, pb, cr, m, he, hs, .start⟩).glob.pendingDialogs = [] ∧
    (runOne e ⟨.typeH, p, a, pf, pb, cr, m, he, hs, .start⟩).insts.all
      (fun j => j.pc == Pc.done) = true := by
  cases he <;> cases hs <;> cases hen : e.enabled <;> cases hro : isReadOnly m <;>
    cases hw : e.inWorkspace p <;> cases a <;>
    cases hS : (executePerforceEdit pf pb).success <;>
    simp [runOne, run, initCfg, initGlob, stepAt, stepInst, seq8, keyMem,
          setKey, eraseKey, hen, hro, hw, hS]

set_option maxHeartbeats 2000000 in
theorem marker_cleared_createH (e : Env) (p : String) (a : Answer)
    (pf pb cr : CmdRes) (m : Option Nat) (he hs : Bool) :
    (runOne e ⟨.createH, p, a, pf, pb, cr, m, he, hs, .start⟩).glob.pendingPrompt = false ∧
    (runOne e ⟨.createH, p, a, pf, pb, cr, m, he, hs, .start⟩).glob.pendingDialogs = [] ∧
    (runOne e ⟨.createH, p, a, pf, pb, cr, m, he, hs, .start⟩).insts.all
      (fun j => j.pc == Pc.done) = true := by
  cases hI : e.ignored p <;> cases hen : e.enabled <;> cases hw : e.inWorkspace p <;>
    cases hP : e.inPerforce p <;> cases a <;>
    simp [runOne, run, initCfg, initGlob, stepAt, stepInst, seq8, addPD,
          hI, hen, hw, hP]

set_option maxHeartbeats 2000000 in
theorem marker_cleared_deleteH (e : Env) (p : String) (a : Answer)
    (pf pb cr : CmdRes) (m : Option Nat) (he hs : Bool) :
    (runOne e ⟨.deleteH, p, a, pf, pb, cr, m, he, hs, .start⟩).glob.pendingPrompt = false ∧
    (runOne e ⟨.deleteH, p, a, pf, pb, cr, m, he, hs, .start⟩).glob.pendingDialogs = [] ∧
    (runOne e ⟨.deleteH, p, a, pf, pb, cr, m, he, hs, .start⟩).insts.all
      (fun j => j.pc == Pc.done) = true := by
  cases hI : e.ignored p <;> cases hen : e.enabled <;> cases hw : e.inWorkspace p <;>
    cases hP : e.inPerforce p <;> cases a <;>
    simp [runOne, run, initCfg, initGlob, stepAt, stepInst, seq8, addPD,
          hI, hen, hw, hP]

/-- C4: whatever the environment, the user's answer (confirmed, declined,
dismissed), and the command outcome (success, failure, or a thrown
invocation), every handler invocation runs to completion with the
outstanding-prompt markers cleared: `pendingPrompt` is `false` and
`pendingDialogs` is empty once the instance reaches `done` — the `finally`
blocks release whatever the guards marked, on every path. -/
theorem marker_always_cleared (e : Env) (k : HKind) (p : String) (a : Answer)
    (pf pb cr : CmdRes) (m : Option Nat) (he hs : Bool) :
    (runOne e ⟨k, p, a, pf, pb, cr, m, he, hs, .start⟩).glob.pendingPrompt = false ∧
    (runOne e ⟨k, p, a, pf, pb, cr, m, he, hs, .start⟩).glob.pendingDialogs = [] ∧
    (runOne e ⟨k, p, a, pf, pb, cr, m, he, hs, .start⟩).insts.all
      (fun j => j.pc == Pc.done) = true := by
  cases k
  · exact marker_cleared_typeH e p a pf pb cr m he hs
  · exact marker_cleared_createH e p a pf pb cr m he hs
  · exact marker_cleared_deleteH e p a pf pb cr m he hs

end PerforceExt
